import Mathlib

/-!
Shallow embedding of the limitd-redis token-bucket rate limiter core.

Sources embedded here:
  * the `take` Lua script (server-side atomic drip/consume),
  * the `put` Lua script (server-side atomic refill),
  * the engine (`LimitDBRedis` in lib/db.js): `calculateReset`, the
    `take`/`put`/`get` response construction, `_determineCount`, `wait`,
    `bucketKeyConfig`,
  * the config normalizer (`normalizeTemporals` / `normalizeType` in
    lib/utils.js),
  * the client resilience wrapper (`LimitdRedis.dispatch` in lib/client.js)
    together with the circuit-breaker trigger predicate.

Numbers computed by the scripts and by the engine are modelled as rationals
(Lua and JavaScript both compute with doubles; none of the properties below
depends on double rounding).  JavaScript `undefined` is modelled as
`Option.none`, and JavaScript truthiness is made explicit at each use site.
-/

namespace Limitd

/-- State of one bucket-instance key in the store.  A present key is a hash
with fields `d` (unix-ms of last drip, possibly fractional since the scripts
compute `TIME[1]*1000 + TIME[2]/1000`) and `r` (remaining tokens), together
with the expiration set by the last `EXPIRE` call. -/
inductive StoredKey where
  | absent : StoredKey
  | present (d r : ℚ) (ttl : ℤ) : StoredKey
deriving DecidableEq, Repr

/-- The tuple returned by the `take` Lua script:
`{ new_content, enough_tokens, current_timestamp_ms, reset_ms }`. -/
structure TakeScriptResult where
  newContent : ℚ
  conformant : Bool
  nowMs : ℚ
  resetMs : ℤ
deriving DecidableEq, Repr

/-- The `take` Lua script.  Arguments mirror `ARGV[1..5]`
(`tokens_per_ms`, `bucket_size`, `tokens_to_take`, `ttl`, `drip_interval`);
`nowMs` is the server `TIME` in milliseconds and `st` the prior state of
`KEYS[1]`.

Faithfulness notes on the Lua source:
  * `if current[1] and tokens_per_ms then` — in Lua every number is truthy
    (including `0`), and `tokens_per_ms` is always a number here, so the
    condition is equivalent to "the key exists"; the
    `elseif current[1] and tokens_per_ms == 0` fixed-bucket branch is
    unreachable.  For an existing key with `tokens_per_ms == 0` the drip
    branch computes `min(r + 0, size)`, which is what we embed.
  * the `HMSET`/`EXPIRE` pair runs unconditionally, so the post-state is
    always a present key. -/
def takeScript (tokensPerMs bucketSize tokensToTake : ℚ) (ttl : ℤ)
    (dripInterval : ℚ) (nowMs : ℚ) (st : StoredKey) :
    StoredKey × TakeScriptResult :=
  let newContent : ℚ :=
    match st with
    | .absent => bucketSize
    | .present d r _ => min (r + max (nowMs - d) 0 * tokensPerMs) bucketSize
  let enoughTokens : Bool := tokensToTake ≤ newContent
  let newContent : ℚ :=
    if enoughTokens then min (newContent - tokensToTake) bucketSize
    else newContent
  let resetMs : ℤ :=
    if 0 < dripInterval then ⌈nowMs + (bucketSize - newContent) * dripInterval⌉
    else 0
  (.present nowMs newContent ttl,
   ⟨newContent, enoughTokens, nowMs, resetMs⟩)

/-- The `put` Lua script.  Arguments mirror `ARGV[1..3]`
(`tokens_to_add`, `bucket_size`, `ttl`); `nowMs` is the server `TIME` and
`st` the prior state of `KEYS[1]`.  `HMGET key r` yields `false` for a
missing key, in which case `current_remaining` is set to `bucket_size`.
The script writes the key only when `new_content < bucket_size` and deletes
it otherwise.  It returns `{ new_content, current_timestamp_ms }`. -/
def putScript (tokensToAdd bucketSize : ℚ) (ttl : ℤ) (nowMs : ℚ)
    (st : StoredKey) : StoredKey × (ℚ × ℚ) :=
  let currentRemaining : ℚ :=
    match st with
    | .absent => bucketSize
    | .present _ r _ => r
  let newContent : ℚ := min (currentRemaining + tokensToAdd) bucketSize
  let st' : StoredKey :=
    if newContent < bucketSize then .present nowMs newContent ttl
    else .absent
  (st', (newContent, nowMs))

/-! ## Engine (lib/db.js) -/

/-- Truncation toward zero, as performed both by the Redis protocol when a
Lua number is returned from a script (cast to integer) and by JavaScript
`parseInt` on the decimal rendering of a number. -/
def jsTrunc (q : ℚ) : ℤ := if q < 0 then ⌈q⌉ else ⌊q⌋

/-- The numeric part of a resolved bucket-key configuration as the engine
uses it (`bucketKeyConfig.size/per_interval/interval`).  A JavaScript
`undefined` `per_interval` (fixed bucket) and an explicit `0` are
indistinguishable to the engine, which only ever tests its truthiness or
divides by it; both are modelled as `per_interval = 0`. -/
structure BucketKeyConfig where
  size : ℚ
  per_interval : ℚ
  interval : ℚ
deriving DecidableEq, Repr

/-- `LimitDBRedis.calculateReset(bucketKeyConfig, remaining, now)`.
`nowArg` is the third JavaScript argument: `none` models `NaN`
(`parseInt` of a missing hash field), and the `now || Date.now()` fallback
also replaces an explicit `0`; `dateNow` is `Date.now()`.  When
`per_interval` is falsy the result is `0`; otherwise
`Math.ceil(missing * interval / per_interval)` milliseconds to completion
are added to `now` and the sum is converted to unix seconds with a second
`Math.ceil`. -/
def calculateReset (cfg : BucketKeyConfig) (remaining : ℚ)
    (nowArg : Option ℤ) (dateNow : ℤ) : ℤ :=
  if cfg.per_interval = 0 then 0
  else
    let now : ℤ :=
      match nowArg with
      | none => dateNow
      | some n => if n = 0 then dateNow else n
    let missing : ℚ := cfg.size - remaining
    let msToCompletion : ℤ := ⌈missing * cfg.interval / cfg.per_interval⌉
    ⌈(((now + msToCompletion : ℤ) : ℚ)) / 1000⌉

/-- The response object produced by the engine for `take`. -/
structure TakeResponse where
  conformant : Bool
  remaining : ℤ
  reset : ℤ
  limit : ℚ
  delayed : Bool
deriving DecidableEq, Repr

/-- The response object produced by the engine for `put` and `get`.
`remaining` is rational because `get` on a missing key reports the
configured `size` verbatim. -/
structure CountResponse where
  remaining : ℚ
  reset : ℤ
  limit : ℚ
deriving DecidableEq, Repr

/-- The store-dispatch path of `LimitDBRedis.take` (the non-`unlimited`
branch): the script is invoked with
`tokensPerMs = per_interval / interval || 0` (in ℚ, division by zero is
already `0`, matching the `|| 0` fallback for the `0/0` case), the reply
fields pass through the Redis protocol integer conversion and `parseInt`
(`jsTrunc`), the Lua boolean comes back as `1`/`nil`, and `reset` is
recomputed locally by `calculateReset` from the reply's `remaining` and
server timestamp (the script's own `reset_ms` reply field is ignored;
`drip_interval` is not forwarded to the script). -/
def engineTake (cfg : BucketKeyConfig) (count : ℚ) (ttlSec : ℤ)
    (nowMs : ℚ) (dateNow : ℤ) (st : StoredKey) : StoredKey × TakeResponse :=
  let tokensPerMs : ℚ := cfg.per_interval / cfg.interval
  let out := takeScript tokensPerMs cfg.size count ttlSec 0 nowMs st
  let remaining : ℤ := jsTrunc out.2.newContent
  (out.1,
   { conformant := out.2.conformant
     remaining := remaining
     reset := calculateReset cfg (remaining : ℚ) (some (jsTrunc out.2.nowMs)) dateNow
     limit := cfg.size
     delayed := false })

/-- The store-dispatch path of `LimitDBRedis.put` (the non-`unlimited`
branch): the script reply `{ new_content, current_timestamp_ms }` passes
through the protocol integer conversion and `parseInt`, and `reset` is
recomputed locally from them. -/
def enginePut (cfg : BucketKeyConfig) (count : ℚ) (ttlSec : ℤ)
    (nowMs : ℚ) (dateNow : ℤ) (st : StoredKey) : StoredKey × CountResponse :=
  let out := putScript count cfg.size ttlSec nowMs st
  let remaining : ℤ := jsTrunc out.2.1
  (out.1,
   { remaining := (remaining : ℚ)
     reset := calculateReset cfg (remaining : ℚ) (some (jsTrunc out.2.2)) dateNow
     limit := cfg.size })

/-- The store-dispatch path of `LimitDBRedis.get` (the non-`unlimited`
branch): a plain `HMGET key r d`; `remaining` is `parseInt` of the stored
`r` when that parses to an integer and the configured `size` otherwise
(missing key ⇒ `NaN` ⇒ `size`); `reset` is computed by `calculateReset`
with `parseInt` of the stored `d` as its `now` argument (`NaN`, i.e.
`none`, for a missing key).  No store mutation occurs. -/
def engineGet (cfg : BucketKeyConfig) (dateNow : ℤ) (st : StoredKey) :
    CountResponse :=
  match st with
  | .absent =>
      { remaining := cfg.size
        reset := calculateReset cfg cfg.size none dateNow
        limit := cfg.size }
  | .present d r _ =>
      { remaining := ((jsTrunc r : ℤ) : ℚ)
        reset := calculateReset cfg ((jsTrunc r : ℤ) : ℚ) (some (jsTrunc d)) dateNow
        limit := cfg.size }

/-! ## `_determineCount` (lib/db.js) -/

/-- A JavaScript value as it can arrive in `params.count`.  `num` carries a
rational standing for a JS number (`NaN` does not arise from the embedded
properties and is not modelled); `int` values are `num q` with `q.den = 1`. -/
inductive JSValue where
  | num (q : ℚ)
  | str (s : String)
  | bool (b : Bool)
  | bigint (n : ℤ)
  | obj
  | nullv
deriving DecidableEq, Repr

/-- `Number.isInteger(v)`: true exactly for numbers with no fractional
part. -/
def isIntegerJS : Option JSValue → Bool
  | some (.num q) => q.den = 1
  | _ => false

/-- JavaScript truthiness of a possibly-absent value (`undefined`, `null`,
`false`, `0`, `0n` and the empty string are falsy). -/
def truthy : Option JSValue → Bool
  | none => false
  | some (.num q) => q ≠ 0
  | some (.str s) => s ≠ ""
  | some (.bool b) => b
  | some (.bigint n) => n ≠ 0
  | some .obj => true
  | some .nullv => false

/-- The error thrown by `_determineCount`: a plain
`Error("if provided, count must be ... an integer value")`, thrown
synchronously (it is not a `LimitdRedisValidationError` delivered through
the callback). -/
inductive CountError where
  | invalidCount
deriving DecidableEq, Repr

/-- `LimitDBRedis._determineCount({paramsCount, defaultCount,
bucketKeyConfigSize})`: `count === 'all'` maps to the bucket size; an
integer number is used as-is; any *falsy* value falls back to the default;
everything else throws. -/
def determineCount (paramsCount : Option JSValue)
    (defaultCount bucketKeyConfigSize : ℚ) : Except CountError ℚ :=
  if paramsCount = some (.str "all") then .ok bucketKeyConfigSize
  else
    match paramsCount with
    | some (.num q) =>
        -- `Number.isInteger` admits the value; a non-integer number is
        -- necessarily nonzero, hence truthy, hence reaches the `throw`.
        if q.den = 1 then .ok q else .error .invalidCount
    | v => if truthy v then .error .invalidCount else .ok defaultCount

/-- The prefix of `LimitDBRedis.take` that runs before any store access:
`_determineCount` with `defaultCount = 1`; a thrown error aborts the call
before the Redis `take` command is issued, so the store state is untouched.
(The `unlimited` short-circuit is not modelled here; this is the
store-dispatch path.) -/
def engineTakeOp (countParam : Option JSValue) (cfg : BucketKeyConfig)
    (ttlSec : ℤ) (nowMs : ℚ) (dateNow : ℤ) (st : StoredKey) :
    Except CountError (StoredKey × TakeResponse) :=
  match determineCount countParam 1 cfg.size with
  | .error e => .error e
  | .ok count => .ok (engineTake cfg count ttlSec nowMs dateNow st)

/-! ## `wait` (lib/db.js) -/

/-- `LimitDBRedis.wait`, run against a trace of successive `take` outcomes
(`Except.error` = the take called back with an error, `Except.ok` = a
response).  Each non-conformant response schedules exactly one retry after
`Math.ceil((count - remaining) * interval / per_interval)` milliseconds,
where `count = params.count || 1`; the recursion then continues on the rest
of the trace.  The result pairs the surfaced outcome with the list of
scheduled delays; `none` means the trace was exhausted with the loop still
retrying.  On a retried success the engine sets `result.delayed = true`
before surfacing it. -/
def waitModel (cfg : BucketKeyConfig) (countParam : Option ℤ) :
    List (Except Unit TakeResponse) → Option (Except Unit TakeResponse × List ℤ)
  | [] => none
  | (Except.error e) :: _ => some (.error e, [])
  | (Except.ok r) :: rest =>
      if r.conformant then some (.ok r, [])
      else
        let count : ℤ :=
          match countParam with
          | some c => if c = 0 then 1 else c
          | none => 1
        let minWait : ℤ :=
          ⌈((count : ℚ) - (r.remaining : ℚ)) * cfg.interval / cfg.per_interval⌉
        match waitModel cfg countParam rest with
        | none => none
        | some (.error e, ws) => some (.error e, minWait :: ws)
        | some (.ok r', ws) =>
            some (.ok { r' with delayed := true }, minWait :: ws)

/-! ## Config normalizer (lib/utils.js) -/

/-- Truthiness of a possibly-absent JS number (absent, and `0`, are
falsy). -/
def truthyQ : Option ℚ → Bool
  | none => false
  | some q => q ≠ 0

/-- The user-facing temporal fields of a bucket configuration object, before
normalization.  `none` is JavaScript `undefined`. -/
structure RawConfig where
  per_interval : Option ℚ
  interval : Option ℚ
  size : Option ℚ
  unlimited : Option Bool
  per_second : Option ℚ
  per_minute : Option ℚ
  per_hour : Option ℚ
  per_day : Option ℚ
deriving DecidableEq, Repr

/-- The object produced by `normalizeTemporals`. -/
structure NormalizedCfg where
  per_interval : Option ℚ
  interval : Option ℚ
  size : Option ℚ
  unlimited : Option Bool
  ttl : Option ℚ
  ms_per_interval : Option ℚ
  drip_interval : Option ℚ
  disable_cache : Bool
deriving DecidableEq, Repr

/-- One step of the `INTERVAL_SHORTCUTS.forEach` loop in
`normalizeTemporals`: a truthy shortcut (`per_second` …) overwrites
`interval` with its fixed millisecond equivalent and `per_interval` with
the shortcut value; a falsy one is skipped. -/
def applyShortcut (c : NormalizedCfg) (v : Option ℚ) (msVal : ℚ) :
    NormalizedCfg :=
  if truthyQ v then { c with interval := some msVal, per_interval := v }
  else c

/-- `normalizeTemporals(params)` from lib/utils.js: `_.pick` of the four
direct fields, the shortcut loop (in `INTERVAL_SHORTCUTS` order), the
`size = per_interval` default, the derived `ttl`, `ms_per_interval` and
`drip_interval` when `per_interval` is truthy (arithmetic involving an
`undefined` operand yields `NaN`, modelled as `none`), and
`disable_cache = true` when it is not. -/
def normalizeTemporals (p : RawConfig) : NormalizedCfg :=
  let c : NormalizedCfg :=
    { per_interval := p.per_interval, interval := p.interval, size := p.size,
      unlimited := p.unlimited, ttl := none, ms_per_interval := none,
      drip_interval := none, disable_cache := false }
  let c := applyShortcut c p.per_second 1000
  let c := applyShortcut c p.per_minute 60000
  let c := applyShortcut c p.per_hour 3600000
  let c := applyShortcut c p.per_day 86400000
  let c := if c.size = none then { c with size := c.per_interval } else c
  let c :=
    if truthyQ c.per_interval then
      { c with
        ttl :=
          match c.size, c.interval, c.per_interval with
          | some s, some i, some pint => some (s * i / pint / 1000)
          | _, _, _ => none
        ms_per_interval :=
          match c.per_interval, c.interval with
          | some pint, some i => some (pint / i)
          | _, _ => none
        drip_interval :=
          match c.interval, c.per_interval with
          | some i, some pint => some (i / pint)
          | _, _ => none }
    else { c with disable_cache := true }
  c

/-- A raw override definition: its temporal fields, the parsed `until`
instant (unix ms; `none` when absent) and the compiled `match` regex,
modelled as the predicate "does this regex accept the key" (`none` when the
definition has no `match`). -/
structure RawOverride where
  cfg : RawConfig
  untilMs : Option ℤ
  matchPat : Option (String → Bool)

/-- A normalized override as stored in `type.overrides` /
`type.overridesMatch`. -/
structure NormOverride where
  cfg : NormalizedCfg
  name : String
  untilMs : Option ℤ
  matchFn : Option (String → Bool)

/-- A raw bucket type: its own config plus its override definitions in
object-insertion order (`params.overrides || params.override`). -/
structure RawType where
  cfg : RawConfig
  overrides : List (String × RawOverride)

/-- The normalized type produced by `normalizeType`: exact-name overrides
(an association list), regex overrides in insertion order, and whether an
`overridesCache` LRU was created (it is created exactly when
`overridesMatch` is non-empty). -/
structure NormType where
  cfg : NormalizedCfg
  overrides : List (String × NormOverride)
  overridesMatch : List NormOverride
  hasCache : Bool

/-- One step of the `_.reduce` in `normalizeType`: normalize the override,
keep it only when `!override.until || override.until >= new Date()`
(expiry is decided here, once, against the normalization-time clock), and
bucket it into the regex list or the by-name list according to whether it
has a `match`. -/
def normalizeOverrideStep (normNow : ℤ)
    (acc : List (String × NormOverride) × List NormOverride)
    (item : String × RawOverride) :
    List (String × NormOverride) × List NormOverride :=
  let o : NormOverride :=
    { cfg := normalizeTemporals item.2.cfg, name := item.1,
      untilMs := item.2.untilMs, matchFn := item.2.matchPat }
  if o.untilMs.all (fun u => normNow ≤ u) then
    match o.matchFn with
    | some _ => (acc.1, acc.2 ++ [o])
    | none => (acc.1 ++ [(item.1, o)], acc.2)
  else acc

/-- `normalizeType(params)` from lib/utils.js, with `normNow` the value of
`new Date()` during normalization.  Each override is normalized and kept
per `normalizeOverrideStep` (expiry decided once, at normalization time);
the `overridesCache` LRU is created exactly when `overridesMatch` ends up
non-empty. -/
def normalizeType (p : RawType) (normNow : ℤ) : NormType :=
  let built := p.overrides.foldl (normalizeOverrideStep normNow) ([], [])
  { cfg := normalizeTemporals p.cfg
    overrides := built.1
    overridesMatch := built.2
    hasCache := !built.2.isEmpty }

/-- Which object `bucketKeyConfig` returned. -/
inductive ResolvedConfig where
  | fromParamsOverride (c : NormalizedCfg)
  | fromOverride (o : NormOverride)
  | fromType (t : NormType)

/-- The caller-supplied fields that `bucketKeyConfig` consults. -/
structure ResolveParams where
  key : String
  configOverride : Option RawConfig

/-- `overridesCache.get`: the LRU is modelled as an association list (the
capacity bound of 50 does not affect resolution semantics; the cache
content is a parameter of the resolution function). -/
def lruGet (cache : List (String × NormOverride)) (k : String) :
    Option NormOverride :=
  (cache.find? (fun e => e.1 = k)).map (fun e => e.2)

/-- `overridesCache.set`. -/
def lruSet (cache : List (String × NormOverride)) (k : String)
    (v : NormOverride) : List (String × NormOverride) :=
  (k, v) :: cache.filter (fun e => e.1 ≠ k)

/-- `LimitDBRedis.bucketKeyConfig(type, params)`: per-call
`configOverride` (normalized on the spot) > exact-name override > cached
regex result (consulted only when the cache exists) > first matching regex
override (then memoized) > the type itself.  No clock is read: an
override's `until` is never re-checked here.  Returns the resolved config
together with the updated cache content. -/
def bucketKeyConfig (t : NormType) (params : ResolveParams)
    (cache : List (String × NormOverride)) :
    ResolvedConfig × List (String × NormOverride) :=
  match params.configOverride with
  | some c => (.fromParamsOverride (normalizeTemporals c), cache)
  | none =>
    match (t.overrides.find? (fun e => e.1 = params.key)).map (fun e => e.2) with
    | some o => (.fromOverride o, cache)
    | none =>
      match (if t.hasCache then lruGet cache params.key else none) with
      | some o => (.fromOverride o, cache)
      | none =>
        match t.overridesMatch.find?
            (fun o => (o.matchFn.getD (fun _ => false)) params.key) with
        | some o => (.fromOverride o, lruSet cache params.key o)
        | none => (.fromType t, cache)

/-! ## Client resilience wrapper (lib/client.js) -/

/-- The error taxonomy the wrapper distinguishes (spec §7):
`LimitdRedisValidationError` (with its stable numeric code), transport-like
errors, and the synthetic breaker-open error. -/
inductive OpError where
  | validation (code : ℕ)
  | transport
  | breakerOpen
deriving DecidableEq, Repr

/-- `err instanceof ValidationError`. -/
def isValidationError : OpError → Bool
  | .validation _ => true
  | _ => false

/-- `circuitBreakerDefaults.trigger` from lib/client.js: an error counts as
a breaker failure exactly when it is not a validation error. -/
def breakerTrigger (e : OpError) : Bool := !(isValidationError e)

/-- `LimitdRedis.dispatch` run against a trace of successive attempt
outcomes: a validation error is returned to the caller immediately (before
`operation.retry` is consulted), any other error consumes a retry while the
budget lasts, and a success is returned.  The result pairs the surfaced
outcome with the number of attempts used; `none` means the trace ended
mid-retry. -/
def dispatchModel {R : Type} (retriesLeft : ℕ) :
    List (Except OpError R) → Option (Except OpError R × ℕ)
  | [] => none
  | (Except.ok v) :: _ => some (.ok v, 1)
  | (Except.error e) :: rest =>
      if isValidationError e then some (.error e, 1)
      else
        match retriesLeft with
        | 0 => some (.error e, 1)
        | n + 1 =>
            (dispatchModel n rest).map (fun x => (x.1, x.2 + 1))

/-- Modelled from the spec: the circuit breaker supplied by the external
`disyuntor` library (spec §4.6), which is not part of this repository.
State: a consecutive-failure counter and an open flag.  An error outcome
for which the configured `trigger` predicate holds increments the counter
and opens the breaker once it reaches `maxFailures`; a success resets it;
an outcome rejected by `trigger` (a validation error, per
`circuitBreakerDefaults.trigger`) leaves the state untouched.  When open,
the call fails immediately with a breaker-open error without reaching the
wrapped function.  (Cooldown/half-open timing is irrelevant to the embedded
property and not modelled.) -/
structure BreakerState where
  failures : ℕ
  isOpen : Bool
deriving DecidableEq, Repr

/-- One wrapped call through the breaker; `outcome` is what the wrapped
dispatch would return for this call. -/
def breakerCall {R : Type} (maxFailures : ℕ) (s : BreakerState)
    (outcome : Except OpError R) : Except OpError R × BreakerState :=
  if s.isOpen then (.error .breakerOpen, s)
  else
    match outcome with
    | .ok v => (.ok v, { failures := 0, isOpen := false })
    | .error e =>
        if breakerTrigger e then
          (.error e,
           { failures := s.failures + 1,
             isOpen := decide (maxFailures ≤ s.failures + 1) })
        else (.error e, s)

/-- A sequence of wrapped calls through the breaker. -/
def breakerRun {R : Type} (maxFailures : ℕ) (s : BreakerState) :
    List (Except OpError R) → List (Except OpError R) × BreakerState
  | [] => ([], s)
  | o :: rest =>
      let c := breakerCall maxFailures s o
      let r := breakerRun maxFailures c.2 rest
      (c.1 :: r.1, r.2)

/-- The dripped content `newR = min(r + max(nowMs − d, 0) · tokensPerMs,
size)` named by the claims about the `take` script (spec §4.4 step 2). -/
def drippedContent (tokensPerMs bucketSize nowMs d r : ℚ) : ℚ :=
  min (r + max (nowMs - d) 0 * tokensPerMs) bucketSize

/-! ## Theorems -/

/-- Rounding the milliseconds-to-completion up before the division by 1000
does not change the resulting unix second: for an integer base instant,
`⌈(n + ⌈x⌉) / 1000⌉ = ⌈(n + x) / 1000⌉`. -/
theorem ceil_add_ceil_div_thousand (n : ℤ) (x : ℚ) :
    ⌈((n + ⌈x⌉ : ℤ) : ℚ) / 1000⌉ = ⌈((n : ℚ) + x) / 1000⌉ := by
  have key : ∀ z : ℤ, (⌈((n + ⌈x⌉ : ℤ) : ℚ) / 1000⌉ ≤ z ↔
      ⌈((n : ℚ) + x) / 1000⌉ ≤ z) := by
    intro z
    rw [Int.ceil_le, Int.ceil_le,
      div_le_iff₀ (by norm_num : (0 : ℚ) < 1000),
      div_le_iff₀ (by norm_num : (0 : ℚ) < 1000)]
    have c1 : ((n + ⌈x⌉ : ℤ) : ℚ) ≤ (z : ℚ) * 1000 ↔
        (n + ⌈x⌉ : ℤ) ≤ z * 1000 := by
      rw [show ((z : ℚ) * 1000) = ((z * 1000 : ℤ) : ℚ) by push_cast; ring]
      exact Int.cast_le
    have c2 : (n : ℚ) + x ≤ (z : ℚ) * 1000 ↔ (n + ⌈x⌉ : ℤ) ≤ z * 1000 := by
      rw [show ((z : ℚ) * 1000) = ((z * 1000 : ℤ) : ℚ) by push_cast; ring]
      constructor
      · intro h
        have hx : x ≤ ((z * 1000 - n : ℤ) : ℚ) := by push_cast at h ⊢; linarith
        have := Int.ceil_le.mpr hx
        omega
      · intro h
        have hx : (⌈x⌉ : ℚ) ≤ ((z * 1000 - n : ℤ) : ℚ) := by
          exact_mod_cast (by omega : ⌈x⌉ ≤ z * 1000 - n)
        have := (Int.le_ceil x).trans hx
        push_cast at this ⊢
        linarith
    rw [c1, c2]
  exact le_antisymm ((key _).mpr le_rfl) ((key _).mp le_rfl)

/-- Claim C2: the `put` script computes and returns
`min(r + tokensToAdd, size)`, a missing key being read as `r = size`; this
holds for negative `tokensToAdd` too (instantiated in the second conjunct:
adding −100 to a full bucket of size 10 yields −90). -/
theorem put_script_remaining (tokensToAdd bucketSize : ℚ) (ttl : ℤ)
    (nowMs : ℚ) (st : StoredKey) :
    (putScript tokensToAdd bucketSize ttl nowMs st).2.1 =
      min ((match st with
            | .absent => bucketSize
            | .present _ r _ => r) + tokensToAdd) bucketSize ∧
    (putScript (-100) 10 604800 0 (.present 0 10 604800)).2.1 = -90 := by
  constructor
  · rfl
  · norm_num [putScript]

/-- Claim C10: the `take` script writes unconditionally — whatever the
prior state and whether or not the take is conformant, the post-state is a
present key with `d = ` server-now, `r = ` the computed content, and the
expiration refreshed to the supplied ttl. -/
theorem take_script_always_writes (tokensPerMs bucketSize tokensToTake : ℚ)
    (ttl : ℤ) (dripInterval nowMs : ℚ) (st : StoredKey) :
    (takeScript tokensPerMs bucketSize tokensToTake ttl dripInterval nowMs st).1 =
      .present nowMs
        (takeScript tokensPerMs bucketSize tokensToTake ttl dripInterval nowMs st).2.newContent
        ttl := by
  cases st <;> rfl

/-- Claim C3, counterexample: the non-conformant `take` of 12 tokens from a
missing bucket of size 10 (spec scenario 2) leaves a stored key whose `r`
field equals the bucket size — refuting "no operation ever leaves a stored
key whose r field equals the bucket size". -/
theorem take_leaves_full_bucket_stored :
    (takeScript 1 10 12 604800 0 0 .absent).2.conformant = false ∧
    (takeScript 1 10 12 604800 0 0 .absent).1 = .present 0 10 604800 := by
  constructor <;> norm_num [takeScript]

/-- The post-state of the `put` script, as one expression: the key is
rewritten when the computed content is below the bucket size and deleted
otherwise. -/
theorem putScript_post (tokensToAdd bucketSize : ℚ) (ttl : ℤ)
    (nowMs : ℚ) (st : StoredKey) :
    (putScript tokensToAdd bucketSize ttl nowMs st).1 =
      if min ((match st with
               | .absent => bucketSize
               | .present _ r _ => r) + tokensToAdd) bucketSize < bucketSize then
        .present nowMs
          (min ((match st with
                 | .absent => bucketSize
                 | .present _ r _ => r) + tokensToAdd) bucketSize) ttl
      else .absent := by
  cases st <;> rfl

/-- Claim C3 (amended): the *put* script never leaves a stored key whose
`r` equals the bucket size — it deletes the key exactly when the computed
content reaches `size` — and a `take` on a missing key treats the bucket as
full (its pre-consumption content is `size`); but the `take` script itself
writes unconditionally and so can leave a stored key with `r = size`. -/
theorem put_full_deletes_key (tokensToAdd bucketSize : ℚ) (ttl : ℤ)
    (nowMs : ℚ) (st : StoredKey)
    (tokensPerMs tokensToTake dripInterval nowMs2 : ℚ) (ttl2 : ℤ) :
    (match (putScript tokensToAdd bucketSize ttl nowMs st).1 with
     | .absent => True
     | .present _ r _ => r < bucketSize) ∧
    ((putScript tokensToAdd bucketSize ttl nowMs st).1 = .absent ↔
      min ((match st with
            | .absent => bucketSize
            | .present _ r _ => r) + tokensToAdd) bucketSize = bucketSize) ∧
    ((takeScript tokensPerMs bucketSize tokensToTake ttl2 dripInterval nowMs2
        .absent).2.conformant = decide (tokensToTake ≤ bucketSize)) ∧
    ((takeScript tokensPerMs bucketSize tokensToTake ttl2 dripInterval nowMs2
        .absent).2.newContent =
      if tokensToTake ≤ bucketSize then min (bucketSize - tokensToTake) bucketSize
      else bucketSize) := by
  refine ⟨?_, ?_, ?_, ?_⟩
  · rw [putScript_post]
    by_cases h : min ((match st with
          | .absent => bucketSize
          | .present _ r _ => r) + tokensToAdd) bucketSize < bucketSize
    · rw [if_pos h]; exact h
    · rw [if_neg h]; trivial
  · rw [putScript_post]
    by_cases h : min ((match st with
          | .absent => bucketSize
          | .present _ r _ => r) + tokensToAdd) bucketSize < bucketSize
    · rw [if_pos h]
      exact iff_of_false (by simp) (ne_of_lt h)
    · rw [if_neg h]
      exact iff_of_true rfl (le_antisymm (min_le_right _ _) (not_lt.mp h))
  · rfl
  · simp only [takeScript, decide_eq_true_eq]

/-- Claim C1, counterexample: the claim asserts that a conformant `take`
stores and returns `newR − tokensToTake`; invoked with
`tokensToTake = −1` on a full bucket (`newR = 10 = size`) the script is
conformant but clamps the result with `min(·, size)` and stores `10`, not
`10 − (−1) = 11`. -/
theorem take_conformant_result_is_clamped :
    (takeScript 1 10 (-1) 604800 0 0 (.present 0 10 604800)).2.conformant = true ∧
    (takeScript 1 10 (-1) 604800 0 0 (.present 0 10 604800)).2.newContent = 10 ∧
    (10 : ℚ) ≠ 10 - (-1) := by
  refine ⟨by norm_num [takeScript], by norm_num [takeScript], by norm_num⟩

/-- Claim C1 (amended): for a `take` on an existing key with
`tokensPerMs > 0`, the script drips to
`newR = min(r + max(nowMs − d, 0)·tokensPerMs, size)` (`drippedContent`),
is conformant exactly when `newR ≥ tokensToTake`, and stores and returns
`min(newR − tokensToTake, size)` when conformant — which equals
`newR − tokensToTake` whenever `tokensToTake ≥ 0` — and `newR` itself when
not; in particular a take of more than `size` tokens is non-conformant and
leaves `r` at the dripped value. -/
theorem take_script_drip_consume (tokensPerMs bucketSize tokensToTake : ℚ)
    (ttl ttl₀ : ℤ) (dripInterval nowMs d r : ℚ)
    (hpm : 0 < tokensPerMs) :
    (takeScript tokensPerMs bucketSize tokensToTake ttl dripInterval nowMs
        (.present d r ttl₀)).2.conformant =
      decide (tokensToTake ≤ drippedContent tokensPerMs bucketSize nowMs d r) ∧
    (takeScript tokensPerMs bucketSize tokensToTake ttl dripInterval nowMs
        (.present d r ttl₀)).2.newContent =
      (if tokensToTake ≤ drippedContent tokensPerMs bucketSize nowMs d r then
        min (drippedContent tokensPerMs bucketSize nowMs d r - tokensToTake)
          bucketSize
       else drippedContent tokensPerMs bucketSize nowMs d r) ∧
    (0 ≤ tokensToTake →
      tokensToTake ≤ drippedContent tokensPerMs bucketSize nowMs d r →
      (takeScript tokensPerMs bucketSize tokensToTake ttl dripInterval nowMs
          (.present d r ttl₀)).2.newContent =
        drippedContent tokensPerMs bucketSize nowMs d r - tokensToTake) ∧
    (bucketSize < tokensToTake →
      (takeScript tokensPerMs bucketSize tokensToTake ttl dripInterval nowMs
          (.present d r ttl₀)).2.conformant = false ∧
      (takeScript tokensPerMs bucketSize tokensToTake ttl dripInterval nowMs
          (.present d r ttl₀)).2.newContent =
        drippedContent tokensPerMs bucketSize nowMs d r) := by
  refine ⟨rfl, ?_, ?_, ?_⟩
  · simp only [takeScript, drippedContent, decide_eq_true_eq]
  · intro h0 hle
    simp only [drippedContent] at hle
    simp only [takeScript, drippedContent, decide_eq_true_eq]
    rw [if_pos hle]
    have hr : min (r + max (nowMs - d) 0 * tokensPerMs) bucketSize ≤ bucketSize :=
      min_le_right _ _
    exact min_eq_left (by linarith)
  · intro hgt
    have hr : min (r + max (nowMs - d) 0 * tokensPerMs) bucketSize ≤ bucketSize :=
      min_le_right _ _
    have hnle : ¬ tokensToTake ≤
        min (r + max (nowMs - d) 0 * tokensPerMs) bucketSize := by
      push_neg
      linarith
    constructor
    · simp only [takeScript, drippedContent]
      simp [hnle]
    · simp only [takeScript, drippedContent, decide_eq_true_eq]
      rw [if_neg hnle]

/-- Witness for `take_script_drip_consume`: taking 1 token from a bucket of
size 10 holding 5 tokens with no elapsed time (`tokensPerMs = 1`) is
conformant and stores 4 = `drippedContent − 1`. -/
theorem take_script_drip_consume_witness :
    (takeScript 1 10 1 604800 0 0 (.present 0 5 604800)).2.newContent =
      drippedContent 1 10 0 0 5 - 1 :=
  (take_script_drip_consume 1 10 1 604800 604800 0 0 0 5
    (by norm_num)).2.2.1 (by norm_num) (by norm_num [drippedContent])

/-- `calculateReset` with a refilling config and a nonzero integer base
instant equals the single-ceiling formula
`⌈(now + missing · (interval/per_interval)) / 1000⌉`. -/
theorem calculateReset_formula (cfg : BucketKeyConfig) (remaining : ℚ)
    (n dateNow : ℤ) (hpi : cfg.per_interval ≠ 0) (hn : n ≠ 0) :
    calculateReset cfg remaining (some n) dateNow =
      ⌈((n : ℚ) +
        (cfg.size - remaining) * (cfg.interval / cfg.per_interval)) / 1000⌉ := by
  simp only [calculateReset]
  rw [if_neg hpi, if_neg hn, ceil_add_ceil_div_thousand, mul_div_assoc]

/-- `calculateReset` with a refilling config and a `NaN` base instant
(missing key) falls back to `Date.now()`. -/
theorem calculateReset_formula_none (cfg : BucketKeyConfig) (remaining : ℚ)
    (dateNow : ℤ) (hpi : cfg.per_interval ≠ 0) :
    calculateReset cfg remaining none dateNow =
      ⌈((dateNow : ℚ) +
        (cfg.size - remaining) * (cfg.interval / cfg.per_interval)) / 1000⌉ := by
  simp only [calculateReset]
  rw [if_neg hpi, ceil_add_ceil_div_thousand, mul_div_assoc]

/-- Claim C5, counterexample: for a `get` on an existing key the base
instant of the reset computation is the *stored* `d` (here 1000 ms), not
the current time (here 999999999 ms): the code returns reset second 2,
while the claimed formula with `nowMs` = current time gives 1000001. -/
theorem get_reset_uses_stored_d :
    (engineGet ⟨10, 5, 1000⟩ 999999999 (.present 1000 5 604800)).reset = 2 ∧
    (2 : ℤ) ≠
      ⌈(((999999999 : ℤ) : ℚ) +
        ((10 : ℚ) - 5) * ((1000 : ℚ) / 5)) / 1000⌉ := by
  constructor
  · show calculateReset ⟨10, 5, 1000⟩ ((jsTrunc 5 : ℤ) : ℚ)
      (some (jsTrunc 1000)) 999999999 = 2
    rw [show jsTrunc (5 : ℚ) = 5 by norm_num [jsTrunc],
      show jsTrunc (1000 : ℚ) = 1000 by norm_num [jsTrunc],
      calculateReset_formula _ _ _ _ (by norm_num) (by norm_num)]
    rw [Int.ceil_eq_iff] <;> norm_num
  · rw [show ⌈(((999999999 : ℤ) : ℚ) +
        ((10 : ℚ) - 5) * ((1000 : ℚ) / 5)) / 1000⌉ = 1000001 by
      rw [Int.ceil_eq_iff] <;> norm_num]
    norm_num

/-- Projection of `engineTake`: the response `remaining` is the truncated
script content. -/
theorem engineTake_remaining_def (cfg : BucketKeyConfig) (count : ℚ)
    (ttlSec : ℤ) (nowMs : ℚ) (dateNow : ℤ) (st : StoredKey) :
    (engineTake cfg count ttlSec nowMs dateNow st).2.remaining =
      jsTrunc (takeScript (cfg.per_interval / cfg.interval) cfg.size count
        ttlSec 0 nowMs st).2.newContent := rfl

/-- Projection of `engineTake`: the response `reset` is `calculateReset`
of the truncated script content at the truncated server timestamp. -/
theorem engineTake_reset_def (cfg : BucketKeyConfig) (count : ℚ)
    (ttlSec : ℤ) (nowMs : ℚ) (dateNow : ℤ) (st : StoredKey) :
    (engineTake cfg count ttlSec nowMs dateNow st).2.reset =
      calculateReset cfg
        ((jsTrunc (takeScript (cfg.per_interval / cfg.interval) cfg.size count
           ttlSec 0 nowMs st).2.newContent : ℤ) : ℚ)
        (some (jsTrunc nowMs)) dateNow := rfl

/-- Projection of `enginePut`: the response `remaining`. -/
theorem enginePut_remaining_def (cfg : BucketKeyConfig) (count : ℚ)
    (ttlSec : ℤ) (nowMs : ℚ) (dateNow : ℤ) (st : StoredKey) :
    (enginePut cfg count ttlSec nowMs dateNow st).2.remaining =
      ((jsTrunc (putScript count cfg.size ttlSec nowMs st).2.1 : ℤ) : ℚ) := rfl

/-- Projection of `enginePut`: the response `reset`. -/
theorem enginePut_reset_def (cfg : BucketKeyConfig) (count : ℚ)
    (ttlSec : ℤ) (nowMs : ℚ) (dateNow : ℤ) (st : StoredKey) :
    (enginePut cfg count ttlSec nowMs dateNow st).2.reset =
      calculateReset cfg
        ((jsTrunc (putScript count cfg.size ttlSec nowMs st).2.1 : ℤ) : ℚ)
        (some (jsTrunc nowMs)) dateNow := rfl

/-- Claim C5 (amended): for a refilling, non-`unlimited` bucket the reset
second of a `take` or `put` response is
`⌈(serverNowMs + (size − remaining)·(interval/per_interval)) / 1000⌉` with
`serverNowMs` the script's (truncated) server timestamp; for a `get` on an
existing key the base instant is the *stored* `d`, and on a missing key the
engine's local `Date.now()` with `remaining = size`; for a bucket with
falsy `per_interval` all three responses carry `reset = 0`. -/
theorem reset_formula (cfg : BucketKeyConfig) (count : ℚ) (ttlSec : ℤ)
    (nowMs : ℚ) (dateNow : ℤ) (st : StoredKey) (d r : ℚ) (ttl₀ : ℤ)
    (hpi : 0 < cfg.per_interval)
    (hn : jsTrunc nowMs ≠ 0) (hd : jsTrunc d ≠ 0) :
    ((engineTake cfg count ttlSec nowMs dateNow st).2.reset =
      ⌈(((jsTrunc nowMs : ℤ) : ℚ) +
        (cfg.size - ((engineTake cfg count ttlSec nowMs dateNow st).2.remaining : ℚ)) *
          (cfg.interval / cfg.per_interval)) / 1000⌉) ∧
    ((enginePut cfg count ttlSec nowMs dateNow st).2.reset =
      ⌈(((jsTrunc nowMs : ℤ) : ℚ) +
        (cfg.size - (enginePut cfg count ttlSec nowMs dateNow st).2.remaining) *
          (cfg.interval / cfg.per_interval)) / 1000⌉) ∧
    ((engineGet cfg dateNow (.present d r ttl₀)).reset =
      ⌈(((jsTrunc d : ℤ) : ℚ) +
        (cfg.size - (engineGet cfg dateNow (.present d r ttl₀)).remaining) *
          (cfg.interval / cfg.per_interval)) / 1000⌉) ∧
    ((engineGet cfg dateNow .absent).remaining = cfg.size ∧
     (engineGet cfg dateNow .absent).reset =
      ⌈((dateNow : ℚ) +
        (cfg.size - cfg.size) * (cfg.interval / cfg.per_interval)) / 1000⌉) ∧
    (∀ cfg2 : BucketKeyConfig, cfg2.per_interval = 0 →
      (engineTake cfg2 count ttlSec nowMs dateNow st).2.reset = 0 ∧
      (enginePut cfg2 count ttlSec nowMs dateNow st).2.reset = 0 ∧
      (engineGet cfg2 dateNow st).reset = 0) := by
  have hpi' : cfg.per_interval ≠ 0 := ne_of_gt hpi
  refine ⟨?_, ?_, ?_, ⟨rfl, ?_⟩, ?_⟩
  · rw [engineTake_reset_def, engineTake_remaining_def]
    exact calculateReset_formula cfg _ _ dateNow hpi' hn
  · rw [enginePut_reset_def, enginePut_remaining_def]
    exact calculateReset_formula cfg _ _ dateNow hpi' hn
  · rw [show (engineGet cfg dateNow (.present d r ttl₀)).reset =
        calculateReset cfg ((jsTrunc r : ℤ) : ℚ) (some (jsTrunc d)) dateNow
        from rfl,
      show (engineGet cfg dateNow (.present d r ttl₀)).remaining =
        ((jsTrunc r : ℤ) : ℚ) from rfl]
    exact calculateReset_formula cfg _ _ dateNow hpi' hd
  · rw [show (engineGet cfg dateNow .absent).reset =
        calculateReset cfg cfg.size none dateNow from rfl]
    exact calculateReset_formula_none cfg _ dateNow hpi'
  · intro cfg2 h0
    refine ⟨?_, ?_, ?_⟩
    · rw [engineTake_reset_def]
      simp only [calculateReset, if_pos h0]
    · rw [enginePut_reset_def]
      simp only [calculateReset, if_pos h0]
    · cases st
      · rw [show (engineGet cfg2 dateNow .absent).reset =
            calculateReset cfg2 cfg2.size none dateNow from rfl]
        simp only [calculateReset, if_pos h0]
      · rw [show ∀ d2 r2 t2, (engineGet cfg2 dateNow (.present d2 r2 t2)).reset =
            calculateReset cfg2 ((jsTrunc r2 : ℤ) : ℚ) (some (jsTrunc d2)) dateNow
            from fun _ _ _ => rfl]
        simp only [calculateReset, if_pos h0]

/-- Witness for `reset_formula`: a `get` on the key stored at `d = 1000 ms`
with `r = 5` in a size-10, 5-per-second bucket. -/
theorem reset_formula_witness :
    (engineGet ⟨10, 5, 1000⟩ 999 (.present 1000 5 604800)).reset =
      ⌈(((jsTrunc 1000 : ℤ) : ℚ) +
        ((10 : ℚ) - (engineGet ⟨10, 5, 1000⟩ 999 (.present 1000 5 604800)).remaining) *
          ((1000 : ℚ) / 5)) / 1000⌉ :=
  (reset_formula ⟨10, 5, 1000⟩ 1 604800 2000 999 .absent 1000 5 604800
    (by norm_num) (by norm_num [jsTrunc]) (by norm_num [jsTrunc])).2.2.1

/-- Claim C8, counterexample: `get` does *not* drip.  With stored
`d = 1 ms`, `r = 0`, config `{size 10, per_interval 5, interval 1000}` and
current time 10000 ms, the claimed formula
`min(r + (now − d)·per_interval/interval, size)` gives 10, but the code
returns the stored `r = 0`. -/
theorem get_remaining_not_dripped :
    (engineGet ⟨10, 5, 1000⟩ 10000 (.present 1 0 604800)).remaining = 0 ∧
    (0 : ℚ) ≠ min ((0 : ℚ) + ((10000 : ℚ) - 1) * 5 / 1000) 10 := by
  constructor
  · show ((jsTrunc 0 : ℤ) : ℚ) = 0
    norm_num [jsTrunc]
  · rw [min_eq_right
      (by norm_num : (10 : ℚ) ≤ 0 + ((10000 : ℚ) - 1) * 5 / 1000)]
    norm_num

/-- Claim C8 (amended): `get` is a pure read (`HMGET r d`; no store
mutation is possible by type): the engine returns the stored `r` verbatim
(as parsed by `parseInt`), with *no* drip applied — the response is
independent of the current time — and the configured `size` for a missing
key; the drip enters the response only through `reset`, whose base instant
is the stored `d`. -/
theorem get_is_pure_read (cfg : BucketKeyConfig) (dateNow dateNow2 : ℤ)
    (d r : ℚ) (ttl₀ : ℤ) :
    (engineGet cfg dateNow (.present d r ttl₀)).remaining =
      ((jsTrunc r : ℤ) : ℚ) ∧
    (engineGet cfg dateNow .absent).remaining = cfg.size ∧
    (engineGet cfg dateNow (.present d r ttl₀)).remaining =
      (engineGet cfg dateNow2 (.present d r ttl₀)).remaining ∧
    (engineGet cfg dateNow (.present d r ttl₀)).reset =
      calculateReset cfg ((jsTrunc r : ℤ) : ℚ) (some (jsTrunc d)) dateNow :=
  ⟨rfl, rfl, rfl, rfl⟩

/-- Claim C6, counterexample: a *falsy* invalid `count` is accepted rather
than rejected — `count: false` (a boolean) and `count: ""` (a string other
than "all") both fall through to the default count of 1 instead of failing
with an error. -/
theorem count_false_accepted :
    determineCount (some (.bool false)) 1 200 = .ok 1 ∧
    determineCount (some (.str "")) 1 200 = .ok 1 :=
  ⟨rfl, rfl⟩

/-- Claim C6 (amended): a supplied `count` is accepted exactly when it is
the string "all", an integer number, or *falsy* (`false`, `""`, `0n`,
`null` — all treated as if absent); every truthy value that is neither
"all" nor an integer (fractions, other nonempty strings, `true`, nonzero
bigints, objects) makes `_determineCount` throw a plain `Error`
synchronously, which aborts `take` before any store access; "all"
translates to the bucket size. -/
theorem determine_count_accepts (v : Option JSValue)
    (defaultCount size : ℚ) (cfg : BucketKeyConfig) (ttlSec : ℤ)
    (nowMs : ℚ) (dateNow : ℤ) (st : StoredKey) :
    ((∃ q, determineCount v defaultCount size = .ok q) ↔
      (v = some (.str "all") ∨ isIntegerJS v = true ∨ truthy v = false)) ∧
    (determineCount (some (.str "all")) defaultCount size = .ok size) ∧
    (determineCount v 1 cfg.size = .error .invalidCount →
      engineTakeOp v cfg ttlSec nowMs dateNow st = .error .invalidCount) := by
  refine ⟨?_, rfl, ?_⟩
  · by_cases hall : v = some (.str "all")
    · subst hall
      simp [determineCount]
    · rcases v with _ | v
      · simp [determineCount, truthy]
      · rcases v with q | s | b | n | _ | _
        · by_cases hq : q.den = 1
          · simp [determineCount, isIntegerJS, hq,
              (by simp : (some (JSValue.num q) = some (JSValue.str "all")) ↔ False)]
          · have hq0 : q ≠ 0 := fun h => hq (by rw [h]; rfl)
            simp [determineCount, isIntegerJS, truthy, hq, hq0,
              (by simp : (some (JSValue.num q) = some (JSValue.str "all")) ↔ False)]
        · have hs : s ≠ "all" := fun h => hall (by rw [h])
          by_cases hs0 : s = ""
          · subst hs0
            simp [determineCount, isIntegerJS, truthy,
              (by simp : (some (JSValue.str "") = some (JSValue.str "all")) ↔ False)]
          · simp [determineCount, isIntegerJS, truthy, hs, hs0,
              (by simp [hs] : (some (JSValue.str s) = some (JSValue.str "all")) ↔ False)]
        · cases b <;> simp [determineCount, isIntegerJS, truthy]
        · by_cases hn : n = 0 <;>
            simp [determineCount, isIntegerJS, truthy, hn]
        · simp [determineCount, isIntegerJS, truthy]
        · simp [determineCount, isIntegerJS, truthy]
  · intro h
    simp [engineTakeOp, h]

/-- Witness for `determine_count_accepts`: `count` supplied as an object is
rejected and `take` aborts with the error before any store access. -/
theorem determine_count_accepts_witness :
    engineTakeOp (some .obj) ⟨10, 5, 1000⟩ 604800 2000 999 .absent =
      .error .invalidCount :=
  (determine_count_accepts (some .obj) 1 10 ⟨10, 5, 1000⟩ 604800 2000 999
    .absent).2.2 rfl

/-- Claim C7: for a `wait` with integer `count > 0`, every non-conformant
take schedules exactly one deferred retry after
`⌈(count − remaining) · interval / per_interval⌉` ms and the loop recurses
until a take is conformant (first conjunct) or errors (second conjunct);
the surfaced result carries `delayed = true` exactly when at least one
retry happened, and a first-take-conformant `wait` returns the take result
unchanged (`delayed = false`). -/
theorem wait_retries (cfg : BucketKeyConfig) (c : ℤ) (hc : 0 < c)
    (pre : List TakeResponse) (hpre : ∀ p ∈ pre, p.conformant = false)
    (final : TakeResponse) (hconf : final.conformant = true)
    (hdel : final.delayed = false) :
    (waitModel cfg (some c) (pre.map Except.ok ++ [Except.ok final]) =
      some (.ok { final with delayed := !pre.isEmpty },
        pre.map (fun p =>
          ⌈((c : ℚ) - (p.remaining : ℚ)) * cfg.interval / cfg.per_interval⌉))) ∧
    (waitModel cfg (some c) (pre.map Except.ok ++ [Except.error ()]) =
      some (.error (),
        pre.map (fun p =>
          ⌈((c : ℚ) - (p.remaining : ℚ)) * cfg.interval / cfg.per_interval⌉))) := by
  induction pre with
  | nil =>
      refine ⟨?_, by simp [waitModel]⟩
      rcases final with ⟨fc, fr, fre, fl, fd⟩
      simp only [TakeResponse.mk.injEq] at hconf hdel ⊢
      subst hconf
      subst hdel
      simp [waitModel]
  | cons p rest ih =>
      have hp : p.conformant = false := hpre p (List.mem_cons_self _ _)
      have hrest : ∀ q ∈ rest, q.conformant = false :=
        fun q hq => hpre q (List.mem_cons_of_mem _ hq)
      obtain ⟨ih1, ih2⟩ := ih hrest
      constructor
      · simp only [List.map_cons, List.cons_append, waitModel, hp,
          Bool.false_eq_true, if_false, if_neg hc.ne', List.append_eq]
        rw [ih1]
        rfl
      · simp only [List.map_cons, List.cons_append, waitModel, hp,
          Bool.false_eq_true, if_false, if_neg hc.ne', List.append_eq]
        rw [ih2]

/-- Witness for `wait_retries`: one non-conformant take with `remaining 0`
in a size-10, 5-per-second bucket, then a conformant one: the retry is
scheduled after `⌈1 · 1000 / 5⌉ = 200` ms and the result is delivered with
`delayed = true`. -/
theorem wait_retries_witness :
    waitModel ⟨10, 5, 1000⟩ (some 1)
      [Except.ok ⟨false, 0, 0, 10, false⟩, Except.ok ⟨true, 9, 2, 10, false⟩] =
      some (.ok ⟨true, 9, 2, 10, true⟩, [200]) := by
  have h := (wait_retries ⟨10, 5, 1000⟩ 1 (by norm_num)
    [⟨false, 0, 0, 10, false⟩]
    (by intro p hp; simp only [List.mem_singleton] at hp; subst hp; rfl)
    ⟨true, 9, 2, 10, false⟩ rfl rfl).1
  have h200 : (⌈(1000 : ℚ) / 5⌉ : ℤ) = 200 := by
    rw [Int.ceil_eq_iff] <;> norm_num
  simpa [h200] using h

/-- Every override kept by `normalizeType` passed the expiry check against
the normalization-time clock: its `until`, when present, is `≥ normNow`. -/
theorem normalizeType_until_sound (p : RawType) (normNow : ℤ) :
    (∀ e ∈ (normalizeType p normNow).overrides,
      e.2.untilMs.all (fun u => normNow ≤ u) = true) ∧
    (∀ o ∈ (normalizeType p normNow).overridesMatch,
      o.untilMs.all (fun u => normNow ≤ u) = true) := by
  have main : ∀ (l : List (String × RawOverride))
      (acc : List (String × NormOverride) × List NormOverride),
      (∀ e ∈ acc.1, e.2.untilMs.all (fun u => normNow ≤ u) = true) →
      (∀ o ∈ acc.2, o.untilMs.all (fun u => normNow ≤ u) = true) →
      (∀ e ∈ (l.foldl (normalizeOverrideStep normNow) acc).1,
        e.2.untilMs.all (fun u => normNow ≤ u) = true) ∧
      (∀ o ∈ (l.foldl (normalizeOverrideStep normNow) acc).2,
        o.untilMs.all (fun u => normNow ≤ u) = true) := by
    intro l
    induction l with
    | nil => exact fun acc h1 h2 => ⟨h1, h2⟩
    | cons it t iht =>
        intro acc h1 h2
        rw [List.foldl_cons]
        by_cases hok : (Option.all (fun u => decide (normNow ≤ u))
            it.2.untilMs) = true
        · refine iht _ ?_ ?_
          · intro e he
            simp only [normalizeOverrideStep, hok, if_true] at he
            rcases hm : it.2.matchPat with _ | f
            · rw [hm] at he
              simp only [List.mem_append] at he
              rcases he with he | he
              · exact h1 e he
              · simp only [List.mem_singleton] at he
                subst he
                exact hok
            · rw [hm] at he
              exact h1 e he
          · intro o ho
            simp only [normalizeOverrideStep, hok, if_true] at ho
            rcases hm : it.2.matchPat with _ | f
            · rw [hm] at ho
              exact h2 o ho
            · rw [hm] at ho
              simp only [List.mem_append] at ho
              rcases ho with ho | ho
              · exact h2 o ho
              · simp only [List.mem_singleton] at ho
                subst ho
                exact hok
        · refine iht _ ?_ ?_ <;>
          · simp only [normalizeOverrideStep, hok, if_false]
            first
            | exact h1
            | exact h2
  exact main p.overrides ([], []) (by simp) (by simp)

/-- Claim C4, counterexample: `bucketKeyConfig` performs no expiry check.
A type normalized at instant 50 keeps an exact-name override with
`until = 100`; resolving the key at instant 200 — after the override's
`until` — still returns that override rather than the type default
(resolution reads no clock at all). -/
theorem override_returned_after_expiry :
    (bucketKeyConfig
      (normalizeType
        ⟨⟨none, none, some 10, none, none, none, none, none⟩,
         [("k", ⟨⟨none, none, some 3, none, none, none, none, none⟩,
                 some 100, none⟩)]⟩ 50)
      ⟨"k", none⟩ []).1 =
      .fromOverride
        ⟨normalizeTemporals ⟨none, none, some 3, none, none, none, none, none⟩,
         "k", some 100, none⟩ ∧
    ¬ ((200 : ℤ) ≤ 100) := by
  exact ⟨rfl, by norm_num⟩

/-- Claim C4 (amended): resolution precedence is per-call `configOverride`
(normalized) > exact-name override > cached regex result (consulted only
when the cache exists) > first matching regex override (then inserted into
the cache) > type default; override expiry is enforced only at
*normalization* time — every override kept by `normalizeType` has
`until ≥` the normalization-time clock — and no expiry check happens at
resolution time. -/
theorem bucket_key_config_resolution (t : NormType) (key : String)
    (cache : List (String × NormOverride)) (c : RawConfig) :
    ((bucketKeyConfig t ⟨key, some c⟩ cache) =
      (.fromParamsOverride (normalizeTemporals c), cache)) ∧
    (∀ o, (t.overrides.find? (fun e => e.1 = key)).map (fun e => e.2) =
        some o →
      bucketKeyConfig t ⟨key, none⟩ cache = (.fromOverride o, cache)) ∧
    (t.overrides.find? (fun e => e.1 = key) = none →
      t.hasCache = true →
      ∀ o, lruGet cache key = some o →
        bucketKeyConfig t ⟨key, none⟩ cache = (.fromOverride o, cache)) ∧
    (t.overrides.find? (fun e => e.1 = key) = none →
      (if t.hasCache then lruGet cache key else none) = none →
      ∀ o, t.overridesMatch.find?
          (fun o => (o.matchFn.getD (fun _ => false)) key) = some o →
        bucketKeyConfig t ⟨key, none⟩ cache =
          (.fromOverride o, lruSet cache key o)) ∧
    (t.overrides.find? (fun e => e.1 = key) = none →
      (if t.hasCache then lruGet cache key else none) = none →
      t.overridesMatch.find?
          (fun o => (o.matchFn.getD (fun _ => false)) key) = none →
      bucketKeyConfig t ⟨key, none⟩ cache = (.fromType t, cache)) ∧
    (∀ (p : RawType) (normNow : ℤ), ∀ e ∈ (normalizeType p normNow).overrides,
      e.2.untilMs.all (fun u => normNow ≤ u) = true) ∧
    (∀ (p : RawType) (normNow : ℤ),
      ∀ o ∈ (normalizeType p normNow).overridesMatch,
      o.untilMs.all (fun u => normNow ≤ u) = true) := by
  refine ⟨rfl, ?_, ?_, ?_, ?_,
    fun p normNow => (normalizeType_until_sound p normNow).1,
    fun p normNow => (normalizeType_until_sound p normNow).2⟩
  · intro o ho
    simp only [bucketKeyConfig, ho]
  · intro hfind hcache o ho
    simp only [bucketKeyConfig, hfind, Option.map_none', hcache, if_true, ho]
  · intro hfind hcache o ho
    simp only [bucketKeyConfig, hfind, Option.map_none', hcache, ho]
  · intro hfind hcache hmatch
    simp only [bucketKeyConfig, hfind, Option.map_none', hcache, hmatch]

/-- Witness for `bucket_key_config_resolution`: the exact-name override
branch on a concrete normalized type. -/
theorem bucket_key_config_resolution_witness :
    bucketKeyConfig
      (normalizeType
        ⟨⟨none, none, some 10, none, none, none, none, none⟩,
         [("k", ⟨⟨none, none, some 3, none, none, none, none, none⟩,
                 some 100, none⟩)]⟩ 50)
      ⟨"k", none⟩ [] =
      (.fromOverride
        ⟨normalizeTemporals ⟨none, none, some 3, none, none, none, none, none⟩,
         "k", some 100, none⟩, []) :=
  (bucket_key_config_resolution _ "k" []
    ⟨none, none, some 10, none, none, none, none, none⟩).2.1 _ rfl

/-- Claim C9: a validation error is surfaced to the caller verbatim after a
single attempt — `dispatch` returns it before consulting
`operation.retry`, for any remaining retry budget — and the breaker, whose
`trigger` predicate rejects validation errors, leaves its state untouched
on every validation-error outcome: a sequence of validation errors of any
length passes through unchanged, never trips a closed breaker, and never
produces a breaker-open error. -/
theorem validation_errors_bypass_breaker {R : Type} (maxF : ℕ)
    (s : BreakerState) (hopen : s.isOpen = false)
    (outs : List (Except OpError R))
    (hval : ∀ o ∈ outs, ∃ code, o = .error (.validation code))
    (rest : List (Except OpError R)) (retries code : ℕ) :
    (dispatchModel retries (Except.error (OpError.validation code) :: rest) =
      some (.error (.validation code), 1)) ∧
    breakerRun maxF s outs = (outs, s) := by
  constructor
  · rw [dispatchModel.eq_def]
    simp [isValidationError]
  · revert hval
    induction outs with
    | nil => exact fun _ => rfl
    | cons o t ih =>
        intro hval
        obtain ⟨cd, hcd⟩ := hval o (List.mem_cons_self _ _)
        subst hcd
        have iht := ih (fun x hx => hval x (List.mem_cons_of_mem _ hx))
        simp only [breakerRun]
        rw [show breakerCall maxF s
            (Except.error (OpError.validation cd) : Except OpError R) =
            (.error (.validation cd), s) from by
          simp [breakerCall, hopen, breakerTrigger, isValidationError]]
        rw [iht]

/-- Witness for `validation_errors_bypass_breaker`: two consecutive
validation errors against a breaker one failure short of tripping
(`failures = 9` of `maxFailures = 10`) pass through verbatim and leave the
breaker closed, and the dispatcher returns a validation error after one
attempt with a full retry budget left. -/
theorem validation_errors_bypass_breaker_witness :
    (dispatchModel 1
        ([Except.error (OpError.validation 102)] : List (Except OpError Unit)) =
      some (.error (.validation 102), 1)) ∧
    breakerRun 10 ⟨9, false⟩
      ([Except.error (OpError.validation 102),
        Except.error (OpError.validation 104)] : List (Except OpError Unit)) =
      ([Except.error (OpError.validation 102),
        Except.error (OpError.validation 104)], ⟨9, false⟩) :=
  validation_errors_bypass_breaker 10 ⟨9, false⟩ rfl
    ([Except.error (OpError.validation 102),
      Except.error (OpError.validation 104)] : List (Except OpError Unit))
    (by
      intro o ho
      simp only [List.mem_cons, List.not_mem_nil, or_false] at ho
      rcases ho with rfl | rfl
      · exact ⟨102, rfl⟩
      · exact ⟨104, rfl⟩)
    [] 1 102

end Limitd
